import Mathlib

/-!
Verification of the module-dependency scanner `tools/scan_module_deps.cpp`.

The development shallowly embeds the tool's pure computation:
strings are Lean `String`s (lists of characters), the filesystem is a
snapshot structure of entry lists, and each C++ routine becomes an
executable Lean function that mirrors its control flow.  The regular
expressions used by the tool are small and anchored, so each is embedded
as the character-level scanner it denotes.
-/

set_option maxRecDepth 8000

namespace ScanModuleDeps

/-- Whitespace test matching the `\s` character class of the C++ regexes. -/
def isWsChar (c : Char) : Bool :=
  c == ' ' || c == '\t' || c == '\n' || c == '\r' || c == '\x0b' || c == '\x0c'

/-- Drop a literal pattern from the front of a character list; `none` if the
pattern is not a prefix.  Models `std::string::starts_with` and literal parts
of the regexes. -/
def stripPfx : List Char → List Char → Option (List Char)
  | [], s => some s
  | _ :: _, [] => none
  | p :: ps, c :: cs => if p = c then stripPfx ps cs else none

/-- `p.starts_with(q)` on strings. -/
def strStarts (p s : String) : Bool := (stripPfx p.data s.data).isSome

/-- `s.ends_with(suf)` on strings. -/
def endsWithStr (s suf : String) : Bool := suf.data.isSuffixOf s.data

/-- `s.find(c) != npos` for the colon test of `processModuleDependencies`. -/
def hasColon (s : String) : Bool := s.data.any (fun c => c == ':')

/-- Main-module name: the part of `module_name` before the first `:`;
the whole name when there is no colon (lines 212-220 of the source). -/
def mainModuleOf (name : String) : String :=
  if hasColon name then String.mk (name.data.takeWhile (fun c => c != ':'))
  else name

/-- Lexicographic character-list comparison, the order `std::string::operator<`
induces on module names. -/
def charListLe : List Char → List Char → Bool
  | [], _ => true
  | _ :: _, [] => false
  | a :: as, b :: bs => if a < b then true else if b < a then false else charListLe as bs

/-- `a <= b` for strings under the C++ ordering. -/
def strLeB (a b : String) : Bool := charListLe a.data b.data

/-- Insert into a sorted list, keeping it sorted. -/
def insertSorted (x : String) : List String → List String
  | [] => [x]
  | y :: ys => if strLeB x y then x :: y :: ys else y :: insertSorted x ys

/-- Sorting by `std::string::operator<`, as `std::sort` produces. -/
def sortStrings : List String → List String
  | [] => []
  | x :: xs => insertSorted x (sortStrings xs)

/-- `std::unique`, fuelled by the list length: collapse runs of equal
adjacent elements.  Dropping a run never grows the list, so the fuel never
runs out. -/
def uniqueAdjAux : Nat → List String → List String
  | 0, l => l
  | _ + 1, [] => []
  | fuel + 1, a :: rest => a :: uniqueAdjAux fuel (rest.dropWhile (fun x => x == a))

/-- `std::unique`: collapse runs of equal adjacent elements. -/
def uniqueAdj (l : List String) : List String := uniqueAdjAux l.length l

/-- `std::sort` followed by `std::unique`/`erase` (lines 240-242). -/
def sortUnique (l : List String) : List String := uniqueAdj (sortStrings l)

/-- One record of the module table (struct `ModuleInfo`). -/
structure ModuleInfo where
  name : String
  imports : List String
  file_path : String := ""
  filename_valid : Bool := true
  expected_filename : String := ""
deriving DecidableEq

/-- The clean import list `processModuleDependencies` builds for one module
(lines 204-236): drop empty and directly-self imports, qualify bare partition
imports with the main-module name, and, for a parent module, append every
module of the table whose name extends it by the partition separator. -/
def cleanImportsOf (table : List ModuleInfo) (m : ModuleInfo) : List String :=
  (m.imports.filterMap (fun imp =>
    if imp ≠ "" ∧ imp ≠ m.name then
      some (if strStarts ":" imp then mainModuleOf m.name ++ imp else imp)
    else none))
  ++ (if hasColon m.name then [] else
      ((table.filter (fun o => strStarts (m.name ++ ":") o.name)).map ModuleInfo.name))

/-- `processModuleDependencies` (lines 202-246): per-module clean imports,
sorted and deduplicated, stored only when non-empty. -/
def processModuleDependencies (table : List ModuleInfo) : List (String × List String) :=
  table.filterMap (fun m =>
    if (cleanImportsOf table m).isEmpty then none
    else some (m.name, sortUnique (cleanImportsOf table m)))

/-- Contiguous chunking of the file list used by `scanProjectModules`
(lines 164-185): `n` chunks of `c` files each, with the earliest chunks
receiving one extra file while `r` remainder files are left. -/
def chunkList (c : Nat) : Nat → Nat → List String → List (List String)
  | _, 0, _ => []
  | r, Nat.succ k, fs =>
      fs.take (c + (if 0 < r then 1 else 0)) ::
        chunkList c (r - 1) k (fs.drop (c + (if 0 < r then 1 else 0)))

/-- Total number of files covered by the first `n` chunks. -/
def chunkTotal (c : Nat) : Nat → Nat → Nat
  | _, 0 => 0
  | r, Nat.succ k => (c + (if 0 < r then 1 else 0)) + chunkTotal c (r - 1) k

/-- The module table `scanProjectModules` builds with `n` workers
(lines 147-193): split the file list into contiguous chunks, parse each chunk
keeping only records with a non-empty module name, then merge all chunk
results in chunk order with `modules[info.name] = info`. -/
def scanWorkers (parse : String → ModuleInfo) (files : List String) (n : Nat) :
    String → Option ModuleInfo :=
  (((chunkList (files.length / n) (files.length % n) n files).map (fun ch =>
      ch.filterMap (fun f =>
        let info := parse f
        if info.name = "" then none else some info))).flatten).foldl
    (fun tbl info => fun k => if k = info.name then some info else tbl k)
    (fun _ => none)

/-- One filesystem entry as the directory iterators yield it. -/
structure FSEntry where
  path : String
  isFile : Bool
deriving DecidableEq

/-- Snapshot of the filesystem: existence test plus, per directory, the entry
lists that `recursive_directory_iterator` and `directory_iterator` enumerate,
in enumeration order. -/
structure FS where
  existsPath : String → Bool
  recEntries : String → List FSEntry
  dirEntries : String → List FSEntry

/-- `fs::path` concatenation `root / sub` for the string paths in use. -/
def joinPath (root sub : String) : String := root ++ "/" ++ sub

/-- `fs::relative(p, root)` for an entry located under `root`. -/
def relativeTo (p root : String) : String :=
  match stripPfx (root ++ "/").data p.data with
  | some rest => String.mk rest
  | none => p

/-- `substr(0, length - suffix.length())` of a glob expression. -/
def dropSuffixStr (s suf : String) : String :=
  String.mk (s.data.take (s.data.length - suf.data.length))

/-- Drop one trailing `/` if present (lines 443-444 and 458-459). -/
def stripSlashEnd (s : String) : String :=
  if endsWithStr s "/" then String.mk (s.data.take (s.data.length - 1)) else s

/-- `fs::path::parent_path` on the string paths in use: the part before the
last `/`, empty when there is none. -/
def parentPath (p : String) : String :=
  String.mk ((p.data.reverse.dropWhile (fun c => c != '/')).tail.reverse)

/-- `processGlobExpression` (lines 435-471): dispatch on the glob suffix,
then enumerate the directory (recursively or single-level) and record every
`.ixx` entry relative to the `project_root` argument.  The single-level
branch has no regular-file check, exactly as in the source. -/
def processGlobExpression (g : String) (fs : FS) (root : String) : List String :=
  if endsWithStr g "**/*.ixx" then
    if fs.existsPath (joinPath root (stripSlashEnd (dropSuffixStr g "**/*.ixx"))) then
      (fs.recEntries (joinPath root (stripSlashEnd (dropSuffixStr g "**/*.ixx")))).filterMap
        (fun e => if e.isFile && endsWithStr e.path ".ixx" then some (relativeTo e.path root)
                  else none)
    else []
  else if endsWithStr g "*.ixx" then
    if fs.existsPath (joinPath root (stripSlashEnd (dropSuffixStr g "*.ixx"))) then
      (fs.dirEntries (joinPath root (stripSlashEnd (dropSuffixStr g "*.ixx")))).filterMap
        (fun e => if endsWithStr e.path ".ixx" then some (relativeTo e.path root) else none)
    else []
  else []

/-- The two-step BUILD-file search of `main` (lines 671-678): `root/src/BUILD`
first, then `root/BUILD`. -/
def buildFilePathOf (root : String) (fs : FS) : Option String :=
  if fs.existsPath (joinPath (joinPath root "src") "BUILD") then
    some (joinPath (joinPath root "src") "BUILD")
  else if fs.existsPath (joinPath root "BUILD") then some (joinPath root "BUILD")
  else none

/-- Substring test `s.find(pat) != npos`. -/
def hasSubstr (pat : List Char) : List Char → Bool
  | [] => pat.isEmpty
  | c :: rest => (stripPfx pat (c :: rest)).isSome || hasSubstr pat rest

/-- One attempt of the group regex `glob\(\s*\[\s*([^\]]+)\s*\]\s*\)` at the
start of `s`, returning the bracket interior on success. -/
def tryGlobAt (s : List Char) : Option (List Char) := do
  let s1 ← stripPfx "glob(".data s
  let s2 ← (match (s1.dropWhile isWsChar) with
            | '[' :: t => some t
            | _ => none)
  let inner := s2.takeWhile (fun c => c != ']')
  if inner.isEmpty then none
  else
    match s2.dropWhile (fun c => c != ']') with
    | ']' :: s3 =>
      match (s3.dropWhile isWsChar) with
      | ')' :: _ => some inner
      | _ => none
    | _ => none

/-- `regex_search` with the glob-group pattern: leftmost successful attempt. -/
def findGlobGroup : List Char → Option (List Char)
  | [] => none
  | c :: rest =>
    match tryGlobAt (c :: rest) with
    | some inner => some inner
    | none => findGlobGroup rest

/-- Iterated quoted-string extraction: `"([^"]+)"` when `withIxx` is false
(the glob-list regex) and `"([^"]+\.ixx)"` when it is true (the literal
file-list regex).  A failed attempt at an opening quote resumes one character
further, as the regex iterator does. -/
def quotedAux (withIxx : Bool) : Nat → List Char → List String
  | 0, _ => []
  | _ + 1, [] => []
  | fuel + 1, c :: rest =>
    if c = '"' then
      match rest.dropWhile (fun x => x != '"') with
      | '"' :: after =>
        if (rest.takeWhile (fun x => x != '"')) ≠ [] ∧
            (¬ withIxx = true ∨ ".ixx".data.isSuffixOf (rest.takeWhile (fun x => x != '"'))) then
          String.mk (rest.takeWhile (fun x => x != '"')) :: quotedAux withIxx fuel after
        else quotedAux withIxx fuel rest
      | _ => quotedAux withIxx fuel rest
    else quotedAux withIxx fuel rest

/-- All quoted strings of `s` (pattern `"([^"]+)"`). -/
def quotedStrings (s : List Char) : List String := quotedAux false s.length s

/-- All quoted `.ixx` file names of `s` (pattern `"([^"]+\.ixx)"`). -/
def ixxQuoted (s : List Char) : List String := quotedAux true s.length s

/-- `parseModuleInterfaces` (lines 401-430): when the field text contains
`glob(`, expand only the quoted patterns of the first `glob([...])` group;
otherwise collect the quoted literal `.ixx` file names. -/
def parseModuleInterfaces (s : String) (fs : FS) (root : String) : List String :=
  if hasSubstr "glob(".data s.data then
    match findGlobGroup s.data with
    | some inner =>
        ((quotedStrings inner).map (fun g => processGlobExpression g fs root)).flatten
    | none => []
  else ixxQuoted s.data

/-- One BUILD target (struct `BuildTarget`). -/
structure BuildTarget where
  name : String
  type : String
  module_interfaces : List String := []
  module_dependencies : List (String × List String) := []
deriving DecidableEq

/-- Comma-separated quoted list, as streamed at lines 535-538. -/
def quoteList : List String → String
  | [] => ""
  | x :: rest => rest.foldl (fun acc d => acc ++ ", \"" ++ d ++ "\"") ("\"" ++ x ++ "\"")

/-- The per-entry loop of `updateBuildFile` (lines 527-540): accumulate the
dependency lines and the list of filename-invalid modules. -/
def depsBlockCore (mods : List ModuleInfo) (deps : List (String × List String)) :
    String × List String :=
  deps.foldl (fun acc md =>
    ((acc.1 ++ "        \"" ++ md.1 ++ "\": [" ++ quoteList md.2 ++ "],\n"),
     match mods.find? (fun mi => mi.name == md.1) with
     | some mi =>
       if mi.filename_valid then acc.2
       else acc.2 ++ [md.1 ++ " (期望: " ++ mi.expected_filename ++ ")"]
     | none => acc.2))
    ("", [])

/-- Comma-separated join for the warning comment (lines 547-550). -/
def warnJoin : List String → String
  | [] => ""
  | x :: rest => rest.foldl (fun acc s => acc ++ ", " ++ s) x

/-- The synthesized `module_dependencies` block text of `updateBuildFile`
(lines 519-554), including the optional warning comment. -/
def buildDepsBlock (t : BuildTarget) (mods : List ModuleInfo) : String :=
  "module_dependencies = \x7b\n" ++ (depsBlockCore mods t.module_dependencies).1 ++ "    \x7d"
  ++ (if (depsBlockCore mods t.module_dependencies).2.isEmpty then ""
      else ", # 警告: 以下模块文件名不规范: " ++ warnJoin (depsBlockCore mods t.module_dependencies).2)
  ++ ","

/-- One attempt of the target regex `TYPE\s*\(\s*name\s*=\s*"NAME"` at the
start of `s`. -/
def tryTargetAt (ty nm : List Char) (s : List Char) : Bool :=
  (do
    let s1 ← stripPfx ty s
    let s2 ← (match s1.dropWhile isWsChar with | '(' :: t => some t | _ => none)
    let s3 ← stripPfx "name".data (s2.dropWhile isWsChar)
    let s4 ← (match s3.dropWhile isWsChar with | '=' :: t => some t | _ => none)
    let s5 ← (match s4.dropWhile isWsChar with | '"' :: t => some t | _ => none)
    let s6 ← stripPfx nm s5
    match s6 with
    | '"' :: _ => some ()
    | _ => none).isSome

/-- `regex_search` with the target pattern: split the content at the leftmost
match position. -/
def findTargetSplit (ty nm : List Char) : List Char → Option (List Char × List Char)
  | [] => if tryTargetAt ty nm [] then some ([], []) else none
  | c :: rest =>
    if tryTargetAt ty nm (c :: rest) then some ([], c :: rest)
    else
      match findTargetSplit ty nm rest with
      | some (pre, post) => some (c :: pre, post)
      | none => none

/-- The bracket-balancing scan of lines 363-379 (and 562-579): walk forward
counting parentheses until the count returns to zero after at least one `(`;
the extent includes the closing parenthesis. -/
def scanExtentGo : List Char → Int → Bool → List Char → Option (List Char × List Char)
  | [], d, _, acc => if d = 0 then some (acc.reverse, []) else none
  | c :: rest, d, fo, acc =>
    if c = '(' then scanExtentGo rest (d + 1) true (c :: acc)
    else if c = ')' then
      if fo ∧ d - 1 = 0 then some ((c :: acc).reverse, rest)
      else scanExtentGo rest (d - 1) fo (c :: acc)
    else scanExtentGo rest d fo (c :: acc)

/-- Extent of a target starting at the head of `s`. -/
def scanExtent (s : List Char) : Option (List Char × List Char) := scanExtentGo s 0 false []

/-- One attempt of `module_dependencies\s*=\s*\{[^}]*\},?` at the start of
`s`, returning the remainder after the match. -/
def tryDepsMatch (s : List Char) : Option (List Char) := do
  let s1 ← stripPfx "module_dependencies".data s
  let s2 ← (match s1.dropWhile isWsChar with | '=' :: t => some t | _ => none)
  let s3 ← (match s2.dropWhile isWsChar with | '\x7b' :: t => some t | _ => none)
  match s3.dropWhile (fun c => c != '\x7d') with
  | '\x7d' :: s4 =>
    match s4 with
    | ',' :: s5 => some s5
    | _ => some s4
  | _ => none

/-- Does the existing-block regex match anywhere in `s`? -/
def hasDepsMatch : List Char → Bool
  | [] => (tryDepsMatch []).isSome
  | c :: rest => (tryDepsMatch (c :: rest)).isSome || hasDepsMatch rest

/-- `std::regex_replace` with the existing-block regex: replace every match
by `repl`, scanning left to right.  Fuelled by the input length; every match
consumes at least the pattern head, so the fuel never runs out. -/
def replaceDepsAux (repl : List Char) : Nat → List Char → List Char
  | 0, s => s
  | _ + 1, [] => []
  | fuel + 1, c :: rest =>
    match tryDepsMatch (c :: rest) with
    | some remainder => repl ++ replaceDepsAux repl fuel remainder
    | none => c :: replaceDepsAux repl fuel rest

/-- Replace every existing dependency block of `s` by `repl`. -/
def replaceDeps (repl s : List Char) : List Char := replaceDepsAux repl s.length s

/-- Split the content at the leftmost occurrence of a literal pattern. -/
def splitAtPfx (pat : List Char) : List Char → Option (List Char × List Char)
  | [] => if (stripPfx pat []).isSome then some ([], []) else none
  | c :: rest =>
    if (stripPfx pat (c :: rest)).isSome then some ([], c :: rest)
    else
      match splitAtPfx pat rest with
      | some (pre, post) => some (c :: pre, post)
      | none => none

/-- Split the content at the first occurrence of a character. -/
def splitAtChar (ch : Char) : List Char → Option (List Char × List Char)
  | [] => none
  | c :: rest =>
    if c = ch then some ([], rest)
    else
      match splitAtChar ch rest with
      | some (pre, post) => some (c :: pre, post)
      | none => none

/-- The depth-counting scan of lines 602-621: find the first `,` at bracket
depth zero, counting `[`/`(` up and `]`/`)` down. -/
def splitAtTopComma (d : Int) : List Char → Option (List Char × List Char)
  | [] => none
  | c :: rest =>
    if c = '[' ∨ c = '(' then
      match splitAtTopComma (d + 1) rest with
      | some (pre, post) => some (c :: pre, post)
      | none => none
    else if c = ']' ∨ c = ')' then
      match splitAtTopComma (d - 1) rest with
      | some (pre, post) => some (c :: pre, post)
      | none => none
    else if c = ',' ∧ d = 0 then some ([], rest)
    else
      match splitAtTopComma d rest with
      | some (pre, post) => some (c :: pre, post)
      | none => none

/-- The insertion path of `updateBuildFile` (lines 595-623): place the new
block right after the top-level comma that terminates the
`module_interfaces` field. -/
def insertAfterInterfaces (tc newDeps : List Char) : Option (List Char) := do
  let (pre, atIface) ← splitAtPfx "module_interfaces".data tc
  let (seg1, afterEq) ← splitAtChar '=' atIface
  let (seg3, seg4) ← splitAtTopComma 0 afterEq
  some (pre ++ seg1 ++ '=' :: seg3 ++ ',' :: ("\n    ".data ++ newDeps ++ seg4))

/-- The per-target edit of `updateBuildFile` (lines 514-627): skip targets
without dependencies, locate the target extent, then either replace an
existing block or insert after the interfaces field; any location failure
leaves the content unchanged. -/
def updateOneTarget (mods : List ModuleInfo) (content : List Char) (t : BuildTarget) :
    List Char :=
  if t.module_dependencies.isEmpty then content
  else
    match findTargetSplit t.type.data t.name.data content with
    | none => content
    | some (pre, post) =>
      match scanExtent post with
      | none => content
      | some (tc, rest) =>
        if hasDepsMatch tc then pre ++ replaceDeps (buildDepsBlock t mods).data tc ++ rest
        else
          match insertAfterInterfaces tc (buildDepsBlock t mods).data with
          | some tc2 => pre ++ tc2 ++ rest
          | none => content

/-- The full text computation of `updateBuildFile`: apply every target's edit
to the in-memory copy of the file, in target order. -/
def updateBuildFileText (targets : List BuildTarget) (mods : List ModuleInfo)
    (content : List Char) : List Char :=
  targets.foldl (updateOneTarget mods) content

/-- The write guard of `updateBuildFile` (lines 629-645): the final file
content and whether a write is performed. -/
def updateBuildFileRun (targets : List BuildTarget) (mods : List ModuleInfo)
    (content : List Char) : List Char × Bool :=
  if updateBuildFileText targets mods content ≠ content then
    (updateBuildFileText targets mods content, true)
  else (content, false)

/-- The control flow of `main` (lines 657-716) over the setup conditions:
usage error, missing project root, and the two-step BUILD search each return
exit code 1 before any processing; otherwise the pipeline runs and returns 0.
The second component records whether a descriptor write is attempted, with
the pipeline outcome abstracted by `pipelineChanged`; an unreadable
descriptor makes both `parseBuildFile` and `updateBuildFile` return early,
so no write happens. -/
def mainRun (hasArg rootExists srcBuildExists rootBuildExists buildReadable
    pipelineChanged : Bool) : Nat × Bool :=
  if !hasArg then (1, false)
  else if !rootExists then (1, false)
  else if srcBuildExists then (0, buildReadable && pipelineChanged)
  else if rootBuildExists then (0, buildReadable && pipelineChanged)
  else (1, false)

/-- Module table with a single partition module that imports itself through a
bare partition alias. -/
def c1table : List ModuleInfo := [⟨"p:a", [":a"], "", true, ""⟩]

/-- Module table for the amended self-reference property: a partition module
whose bare alias import does not resolve to itself. -/
def c1wtable : List ModuleInfo := [⟨"p:a", ["p:b", ":c"], "", true, ""⟩]

/-- Parent module with two partitions and no explicit imports anywhere. -/
def c6table : List ModuleInfo :=
  [⟨"p", [], "", true, ""⟩, ⟨"p:a", [], "", true, ""⟩, ⟨"p:b", [], "", true, ""⟩]

/-- Partition module with one bare partition import. -/
def c7table : List ModuleInfo := [⟨"p:a", [":util"], "", true, ""⟩]

/-- Directory entries for the glob fixtures. -/
def e1 : FSEntry := ⟨"r/d/a.ixx", true⟩

/-- Second directory entry for the glob fixtures. -/
def e2 : FSEntry := ⟨"r/d/b.ixx", true⟩

/-- A directory snapshot whose iterator yields `e1` before `e2`. -/
def fsA : FS :=
  ⟨fun d => d == "r/d", fun _ => [], fun d => if d == "r/d" then [e1, e2] else []⟩

/-- The same snapshot with the opposite enumeration order. -/
def fsB : FS :=
  ⟨fun d => d == "r/d", fun _ => [], fun d => if d == "r/d" then [e2, e1] else []⟩

/-- Project tree with the descriptor file in the conventional `src`
subdirectory and one interface file under `src/m`. -/
def fsC : FS :=
  ⟨fun d => d == "proj/src/BUILD" || d == "proj/src/m",
   fun _ => [],
   fun d => if d == "proj/src/m" then [⟨"proj/src/m/a.ixx", true⟩] else []⟩

/-- Snapshot for the interfaces-field fixture. -/
def fsD : FS :=
  ⟨fun d => d == "r/d", fun _ => [],
   fun d => if d == "r/d" then [⟨"r/d/a.ixx", true⟩] else []⟩

/-- Interfaces field carrying both a glob group and a literal file name. -/
def c10field : String := "glob([\"d/*.ixx\"]), \"lit.ixx\""

/-- Build target whose dependency projection contains the filename-invalid
module `m`. -/
def c2targets : List BuildTarget :=
  [{ name := "lib", type := "cc_module_library",
     module_interfaces := ["x.ixx", "n.ixx"],
     module_dependencies := [("m", ["n"])] }]

/-- Module table with `m` declared in `x.ixx`, violating the filename
convention (expected `m.ixx`). -/
def c2mods : List ModuleInfo :=
  [⟨"m", ["n"], "proj/src/x.ixx", false, "m.ixx"⟩,
   ⟨"n", [], "proj/src/n.ixx", true, ""⟩]

/-- Initial descriptor file content, without a dependency block. -/
def c2build : List Char :=
  ("cc_module_library(\n    name = \"lib\",\n    module_interfaces = [\"x.ixx\", \"n.ixx\"],\n)\n").data

/-- Trivial parser assigning each file its path as module name. -/
def parseW : String → ModuleInfo := fun s => ⟨s, [], s, true, ""⟩

/-- File list for the chunking fixture. -/
def filesW : List String := ["a.ixx", "b.ixx", "c.ixx"]

/-! ### Helper lemmas -/

theorem data_append (a b : String) : (a ++ b).data = a.data ++ b.data := rfl

theorem colon_data : (":" : String).data = [':'] := rfl

theorem mk_data (s : String) : String.mk s.data = s := rfl

theorem stripPfx_eq_some {p : List Char} :
    ∀ {s r : List Char}, stripPfx p s = some r ↔ s = p ++ r := by
  induction p with
  | nil =>
    intro s r
    simp only [stripPfx, List.nil_append, Option.some.injEq]
  | cons a as ih =>
    intro s r
    cases s with
    | nil => simp [stripPfx]
    | cons c cs =>
      simp only [stripPfx, List.cons_append, List.cons_eq_cons]
      by_cases h : a = c
      · subst h; simp [ih]
      · simp only [if_neg h]
        constructor
        · intro h2; cases h2
        · intro h2; exact absurd h2.1.symm h

theorem strStarts_iff {p s : String} : strStarts p s = true ↔ ∃ r, s.data = p.data ++ r := by
  unfold strStarts
  rcases h : stripPfx p.data s.data with _ | r
  · simp only [Option.isSome_none]
    constructor
    · intro h2; cases h2
    · rintro ⟨r, hr⟩
      have h3 := stripPfx_eq_some.mpr hr
      rw [h] at h3; cases h3
  · simp only [Option.isSome_some, true_iff]
    exact ⟨r, stripPfx_eq_some.mp h⟩

theorem strStarts_colon_ne {s t : String} (h : strStarts (s ++ ":") t = true) : t ≠ s := by
  intro he
  subst he
  rcases strStarts_iff.mp h with ⟨r, hr⟩
  rw [data_append, colon_data] at hr
  have hlen := congrArg List.length hr
  simp [List.length_append] at hlen

theorem mem_insertSorted (a x : String) (l : List String) :
    a ∈ insertSorted x l ↔ a = x ∨ a ∈ l := by
  induction l with
  | nil => simp [insertSorted]
  | cons y ys ih =>
    simp only [insertSorted]
    by_cases h : strLeB x y = true
    · rw [if_pos h]; simp [List.mem_cons]
    · rw [if_neg h]
      simp only [List.mem_cons, ih]
      tauto

theorem mem_sortStrings (a : String) (l : List String) : a ∈ sortStrings l ↔ a ∈ l := by
  induction l with
  | nil => simp [sortStrings]
  | cons x xs ih => simp [sortStrings, mem_insertSorted, ih]

theorem mem_uniqueAdjAux (x : String) :
    ∀ (fuel : Nat) (l : List String), l.length ≤ fuel → (x ∈ uniqueAdjAux fuel l ↔ x ∈ l) := by
  intro fuel
  induction fuel with
  | zero => intro l _; simp [uniqueAdjAux]
  | succ k ih =>
    intro l hl
    cases l with
    | nil => simp [uniqueAdjAux]
    | cons a rest =>
      simp only [uniqueAdjAux]
      by_cases hx : x = a
      · simp [hx]
      · simp only [List.mem_cons, hx, false_or]
        rw [ih _ (Nat.le_of_succ_le_succ
          (Nat.le_trans (Nat.succ_le_succ ((List.dropWhile_sublist _).length_le)) hl))]
        constructor
        · intro h; exact (List.dropWhile_sublist _).mem h
        · intro h
          have hsplit : rest.takeWhile (fun y => y == a) ++ rest.dropWhile (fun y => y == a)
              = rest := List.takeWhile_append_dropWhile _ _
          rw [← hsplit] at h
          rcases List.mem_append.mp h with h1 | h2
          · exact absurd (by simpa using List.mem_takeWhile_imp h1) hx
          · exact h2

theorem mem_uniqueAdj (x : String) (l : List String) : x ∈ uniqueAdj l ↔ x ∈ l :=
  mem_uniqueAdjAux x l.length l (Nat.le_refl _)

theorem mem_sortUnique (a : String) (l : List String) : a ∈ sortUnique l ↔ a ∈ l := by
  unfold sortUnique
  rw [mem_uniqueAdj, mem_sortStrings]

theorem takeWhile_all_cons (p : Char → Bool) (xs : List Char) (c : Char) (ys : List Char)
    (h : ∀ x ∈ xs, p x = true) (hc : p c = false) :
    (xs ++ c :: ys).takeWhile p = xs := by
  induction xs with
  | nil => simp [List.takeWhile_cons, hc]
  | cons a as ih =>
    have ha : p a = true := h a (by simp)
    simp [List.takeWhile_cons, ha, ih (fun x hx => h x (by simp [hx]))]

theorem dropWhile_all_append (p : Char → Bool) (xs ys : List Char)
    (h : ∀ x ∈ xs, p x = true) :
    (xs ++ ys).dropWhile p = ys.dropWhile p := by
  induction xs with
  | nil => simp
  | cons a as ih =>
    have ha : p a = true := h a (by simp)
    simp [List.dropWhile_cons, ha, ih (fun x hx => h x (by simp [hx]))]

theorem mainModuleOf_noColon (s : String) (h : hasColon s = false) : mainModuleOf s = s := by
  simp [mainModuleOf, h]

theorem mainModuleOf_parent (parent suf : String) (h : hasColon parent = false) :
    mainModuleOf (parent ++ ":" ++ suf) = parent := by
  have hdata : (parent ++ ":" ++ suf).data = parent.data ++ ':' :: suf.data := by
    rw [data_append, data_append, colon_data, List.append_assoc]
    rfl
  have hall : ∀ c ∈ parent.data, (c != ':') = true := by
    intro c hc
    cases hbe : c == ':' with
    | false => simp [bne, hbe]
    | true =>
      exfalso
      have h2 : parent.data.any (fun c => c == ':') = true := List.any_eq_true.mpr ⟨c, hc, hbe⟩
      rw [show parent.data.any (fun c => c == ':') = hasColon parent from rfl, h] at h2
      cases h2
  have hcolon : hasColon (parent ++ ":" ++ suf) = true := by
    unfold hasColon
    rw [hdata]
    refine List.any_eq_true.mpr ⟨':', by simp, by simp⟩
  unfold mainModuleOf
  rw [hcolon, if_pos rfl, hdata,
      takeWhile_all_cons _ parent.data ':' suf.data hall (by decide), mk_data]

theorem mem_processDeps_entry (table : List ModuleInfo) (m : ModuleInfo) (hm : m ∈ table)
    (hne : cleanImportsOf table m ≠ []) :
    (m.name, sortUnique (cleanImportsOf table m)) ∈ processModuleDependencies table := by
  unfold processModuleDependencies
  refine List.mem_filterMap.mpr ⟨m, hm, ?_⟩
  simp [List.isEmpty_iff, hne]

theorem processDeps_src {table : List ModuleInfo} {nm : String} {ds : List String}
    (h : (nm, ds) ∈ processModuleDependencies table) :
    ∃ m, m ∈ table ∧ m.name = nm ∧ ds = sortUnique (cleanImportsOf table m) := by
  rcases List.mem_filterMap.mp h with ⟨m, hm, hf⟩
  by_cases he : (cleanImportsOf table m).isEmpty = true
  · rw [if_pos he] at hf; cases hf
  · rw [if_neg he] at hf
    injection hf with hf
    rw [Prod.mk.injEq] at hf
    exact ⟨m, hm, hf.1, hf.2.symm⟩

theorem parentPath_join (root last : String) (h : ∀ c ∈ last.data, (c != '/') = true) :
    parentPath (joinPath root last) = root := by
  unfold parentPath joinPath
  have hdata : (root ++ "/" ++ last).data = root.data ++ '/' :: last.data := by
    rw [data_append, data_append, List.append_assoc]
    rfl
  rw [hdata]
  have hrev : (root.data ++ '/' :: last.data).reverse
      = last.data.reverse ++ '/' :: root.data.reverse := by
    rw [List.reverse_append, List.reverse_cons, List.append_assoc]
    rfl
  rw [hrev, dropWhile_all_append _ _ _ (fun c hc => h c (List.mem_reverse.mp hc)),
      List.dropWhile_cons]
  simp only [show (('/' : Char) != '/') = false from rfl, Bool.false_eq_true, if_false,
    List.tail_cons, List.reverse_reverse]

theorem chunkList_flatten (c : Nat) :
    ∀ (n r : Nat) (fs : List String),
      (chunkList c r n fs).flatten = fs.take (chunkTotal c r n) := by
  intro n
  induction n with
  | zero => intro r fs; simp [chunkList, chunkTotal]
  | succ k ih =>
    intro r fs
    simp only [chunkList, chunkTotal, List.flatten_cons, ih, ← List.take_add]

theorem chunkTotal_eq (c : Nat) : ∀ (n r : Nat), r ≤ n → chunkTotal c r n = n * c + r := by
  intro n
  induction n with
  | zero =>
    intro r hr
    have h0 : r = 0 := Nat.le_zero.mp hr
    subst h0
    simp [chunkTotal]
  | succ k ih =>
    intro r hr
    simp only [chunkTotal]
    by_cases h : 0 < r
    · rw [if_pos h, ih (r - 1) (by omega), Nat.succ_mul]
      omega
    · have h0 : r = 0 := by omega
      subst h0
      rw [if_neg h, ih 0 (by omega), Nat.succ_mul]
      omega

/-! ### Claim theorems -/

/-- Claim C1, counterexample: the module `p:a` whose only import is the bare
partition alias `:a` receives the dependency list `["p:a"]` — the alias is
qualified to `p:a` after the self-reference filter has already run, so the
module lists its own name, contradicting the claim as stated. -/
theorem c1_cex : ∃ ds, ("p:a", ds) ∈ processModuleDependencies c1table ∧ "p:a" ∈ ds :=
  ⟨["p:a"], by decide, by decide⟩

/-- Claim C1 (amended): a module's stored dependency list never contains the
module's own name, provided none of its imports is a bare partition alias
that qualifies to the module's own name.  Direct self-imports are always
dropped, and the appended partition names are strictly longer than the
parent's name, so only an alias resolving to itself can produce a
self-dependency. -/
theorem c1_amended : ∀ (table : List ModuleInfo) (m : ModuleInfo) (ds : List String),
    (table.map ModuleInfo.name).Nodup → m ∈ table →
    (∀ imp ∈ m.imports, strStarts ":" imp = true → mainModuleOf m.name ++ imp ≠ m.name) →
    (m.name, ds) ∈ processModuleDependencies table → m.name ∉ ds := by
  intro table m ds hnd hm halias hds
  rcases processDeps_src hds with ⟨m2, hm2, hname, hds2⟩
  have hmm : m2 = m := List.inj_on_of_nodup_map hnd hm2 hm hname
  subst hmm
  subst hds2
  intro hmem
  have hci : m2.name ∈ cleanImportsOf table m2 := (mem_sortUnique _ _).mp hmem
  unfold cleanImportsOf at hci
  rcases List.mem_append.mp hci with hA | hB
  · rcases List.mem_filterMap.mp hA with ⟨imp, himp, hf⟩
    by_cases hc : imp ≠ "" ∧ imp ≠ m2.name
    · rw [if_pos hc] at hf
      by_cases hcol : strStarts ":" imp = true
      · rw [if_pos hcol] at hf
        exact halias imp himp hcol (Option.some.inj hf)
      · rw [if_neg hcol] at hf
        exact hc.2 (Option.some.inj hf)
    · rw [if_neg hc] at hf; cases hf
  · by_cases hcol : hasColon m2.name = true
    · rw [if_pos hcol] at hB
      exact absurd hB (List.not_mem_nil _)
    · rw [if_neg hcol] at hB
      rcases List.mem_map.mp hB with ⟨o, hof, honame⟩
      exact strStarts_colon_ne (List.mem_filter.mp hof).2 honame

/-- Claim C1, witness for the amended theorem: in a table where the bare
alias `:c` of module `p:a` qualifies to `p:c`, the stored list `["p:b",
"p:c"]` does not contain `p:a`. -/
theorem c1_amended_witness :
    (("p:a", ["p:b", "p:c"]) ∈ processModuleDependencies c1wtable)
    ∧ "p:a" ∉ (["p:b", "p:c"] : List String) :=
  ⟨by decide,
   c1_amended c1wtable ⟨"p:a", ["p:b", ":c"], "", true, ""⟩ ["p:b", "p:c"]
     (by decide) (by decide) (by decide) (by decide)⟩

/-- Claim C2 (code bug): on the fixture project whose target carries the
filename-invalid module `m`, the text computed by a second `updateBuildFile`
run differs from the first run's output (the existing-block regex stops at
the closing brace and comma, leaving the old warning comment in place and
appending a new one), so the second run rewrites the descriptor file. -/
theorem c2_bug :
    updateBuildFileText c2targets c2mods (updateBuildFileText c2targets c2mods c2build)
      ≠ updateBuildFileText c2targets c2mods c2build
    ∧ (updateBuildFileRun c2targets c2mods (updateBuildFileText c2targets c2mods c2build)).2
      = true := by
  constructor
  · decide
  · decide

/-- Claim C3, counterexample: the two snapshots enumerate the same entry set
for `r/d` in opposite orders, yet the single-level glob produces two
different lists — the results are used in iterator order, not sorted. -/
theorem c3_cex :
    ((fsA.dirEntries "r/d").Perm (fsB.dirEntries "r/d"))
    ∧ processGlobExpression "d/*.ixx" fsA "r" ≠ processGlobExpression "d/*.ixx" fsB "r" := by
  constructor
  · decide
  · decide

/-- Claim C3 (amended): for a fixed directory snapshot, the file list a glob
expression produces is invariant as a multiset under reordering of the
filesystem enumeration — the same files are listed, though their order
follows the iterator. -/
theorem c3_perm : ∀ (fs1 fs2 : FS) (root g : String),
    (∀ d, fs1.existsPath d = fs2.existsPath d) →
    (∀ d, (fs1.recEntries d).Perm (fs2.recEntries d)) →
    (∀ d, (fs1.dirEntries d).Perm (fs2.dirEntries d)) →
    (processGlobExpression g fs1 root).Perm (processGlobExpression g fs2 root) := by
  intro fs1 fs2 root g he hr hd
  unfold processGlobExpression
  simp only [he]
  by_cases h1 : endsWithStr g "**/*.ixx" = true
  · rw [if_pos h1, if_pos h1]
    by_cases h2 : fs2.existsPath (joinPath root (stripSlashEnd (dropSuffixStr g "**/*.ixx"))) = true
    · rw [if_pos h2, if_pos h2]
      exact (hr _).filterMap _
    · rw [if_neg h2, if_neg h2]
  · rw [if_neg h1, if_neg h1]
    by_cases h3 : endsWithStr g "*.ixx" = true
    · rw [if_pos h3, if_pos h3]
      by_cases h4 : fs2.existsPath (joinPath root (stripSlashEnd (dropSuffixStr g "*.ixx"))) = true
      · rw [if_pos h4, if_pos h4]
        exact (hd _).filterMap _
      · rw [if_neg h4, if_neg h4]
    · rw [if_neg h3, if_neg h3]

/-- Claim C3, witness: applying the permutation theorem to the two concrete
snapshots of the counterexample. -/
theorem c3_perm_witness :
    (processGlobExpression "d/*.ixx" fsA "r").Perm (processGlobExpression "d/*.ixx" fsB "r") :=
  c3_perm fsA fsB "r" "d/*.ixx" (fun _ => rfl) (fun _ => List.Perm.refl _)
    (fun d => by
      show (if (d == "r/d") = true then [e1, e2] else []).Perm
        (if (d == "r/d") = true then [e2, e1] else [])
      split
      · decide
      · exact List.Perm.refl [])

/-- Claim C4, counterexample: with the project root present, the descriptor
file present but unreadable, `main` still returns exit code 0 — an
unreadable descriptor is a soft error, not an exit-1 condition as the claim
states. -/
theorem c4_cex : (mainRun true true true false false true).1 = 0 := by decide

/-- Claim C4 (amended): the program exits 1 exactly when the argument or the
project root is missing or no descriptor file exists at either search
location; the exit code is always 0 or 1; in every exit-1 case no descriptor
write is attempted; and an unreadable descriptor never leads to a write
(the run still exits 0). -/
theorem c4_codes : ∀ a re sb rb br pc : Bool,
    ((mainRun a re sb rb br pc).1 = 1 ↔ (a = false ∨ re = false ∨ (sb = false ∧ rb = false)))
    ∧ ((mainRun a re sb rb br pc).1 = 0 ∨ (mainRun a re sb rb br pc).1 = 1)
    ∧ ((mainRun a re sb rb br pc).1 = 1 → (mainRun a re sb rb br pc).2 = false)
    ∧ (br = false → (mainRun a re sb rb br pc).2 = false) := by
  decide

/-- Claim C4, witness: a missing argument yields exit code 1. -/
theorem c4_codes_witness : (mainRun false true true true true true).1 = 1 :=
  (c4_codes false true true true true true).1.mpr (Or.inl rfl)

/-- Claim C5, counterexample: with the descriptor file at `proj/src/BUILD`,
the glob `m/*.ixx` records `m/a.ixx` — the path relative to the descriptor's
parent directory `proj/src` — whereas relative to the project root the file
is `src/m/a.ixx`. -/
theorem c5_cex :
    buildFilePathOf "proj" fsC = some "proj/src/BUILD"
    ∧ processGlobExpression "m/*.ixx" fsC (parentPath "proj/src/BUILD") = ["m/a.ixx"]
    ∧ relativeTo "proj/src/m/a.ixx" "proj" = "src/m/a.ixx"
    ∧ ("m/a.ixx" : String) ≠ "src/m/a.ixx" := by
  refine ⟨by decide, by decide, by decide, by decide⟩

/-- Claim C5 (amended): every interface path recorded by glob expansion is
`relative(entry, root)` for the directory-parameter `root` the caller passes,
which is the descriptor file's parent directory; that parent equals the
project root exactly in the `root/BUILD` case, and equals `root/src` in the
conventional `root/src/BUILD` case. -/
theorem c5_rel :
    (∀ (fs : FS) (root g x : String), x ∈ processGlobExpression g fs root →
      ∃ d e, (e ∈ fs.recEntries d ∨ e ∈ fs.dirEntries d) ∧ x = relativeTo e.path root)
    ∧ (∀ root : String, parentPath (joinPath root "BUILD") = root)
    ∧ (∀ root : String,
        parentPath (joinPath (joinPath root "src") "BUILD") = joinPath root "src") := by
  refine ⟨?_, ?_, ?_⟩
  · intro fs root g x hx
    unfold processGlobExpression at hx
    by_cases h1 : endsWithStr g "**/*.ixx" = true
    · rw [if_pos h1] at hx
      by_cases h2 : fs.existsPath (joinPath root (stripSlashEnd (dropSuffixStr g "**/*.ixx"))) = true
      · rw [if_pos h2] at hx
        rcases List.mem_filterMap.mp hx with ⟨e, he, hfe⟩
        refine ⟨_, e, Or.inl he, ?_⟩
        by_cases h3 : (e.isFile && endsWithStr e.path ".ixx") = true
        · rw [if_pos h3] at hfe
          exact (Option.some.inj hfe).symm
        · rw [if_neg h3] at hfe; cases hfe
      · rw [if_neg h2] at hx
        exact absurd hx (List.not_mem_nil x)
    · rw [if_neg h1] at hx
      by_cases h3 : endsWithStr g "*.ixx" = true
      · rw [if_pos h3] at hx
        by_cases h4 : fs.existsPath (joinPath root (stripSlashEnd (dropSuffixStr g "*.ixx"))) = true
        · rw [if_pos h4] at hx
          rcases List.mem_filterMap.mp hx with ⟨e, he, hfe⟩
          refine ⟨_, e, Or.inr he, ?_⟩
          by_cases h5 : endsWithStr e.path ".ixx" = true
          · rw [if_pos h5] at hfe
            exact (Option.some.inj hfe).symm
          · rw [if_neg h5] at hfe; cases hfe
        · rw [if_neg h4] at hx
          exact absurd hx (List.not_mem_nil x)
      · rw [if_neg h3] at hx
        exact absurd hx (List.not_mem_nil x)
  · intro root
    exact parentPath_join root "BUILD" (by decide)
  · intro root
    exact parentPath_join (joinPath root "src") "BUILD" (by decide)

/-- Claim C5, witness: the concrete snapshot's recorded path `m/a.ixx` is the
relativization of some enumerated entry against the descriptor parent
`proj/src`. -/
theorem c5_rel_witness :
    ∃ d e, (e ∈ fsC.recEntries d ∨ e ∈ fsC.dirEntries d)
      ∧ "m/a.ixx" = relativeTo e.path "proj/src" :=
  c5_rel.1 fsC "proj/src" "m/*.ixx" "m/a.ixx" (by decide)

/-- Claim C6: a parent module's stored dependency list contains the name of
every other module of the table whose name extends the parent's name by the
partition separator; in particular the parent `p` with discovered partitions
`p:a` and `p:b` and no explicit imports resolves to exactly `["p:a", "p:b"]`,
sorted. -/
theorem c6_partitions :
    (∀ (table : List ModuleInfo) (m other : ModuleInfo),
      m ∈ table → other ∈ table → hasColon m.name = false →
      strStarts (m.name ++ ":") other.name = true →
      ∃ ds, (m.name, ds) ∈ processModuleDependencies table ∧ other.name ∈ ds)
    ∧ processModuleDependencies c6table = [("p", ["p:a", "p:b"])] := by
  constructor
  · intro table m other hm ho hcol hstarts
    have hmem : other.name ∈ cleanImportsOf table m := by
      unfold cleanImportsOf
      apply List.mem_append_right
      rw [if_neg (by simp [hcol])]
      exact List.mem_map.mpr ⟨other, List.mem_filter.mpr ⟨ho, hstarts⟩, rfl⟩
    exact ⟨sortUnique (cleanImportsOf table m),
      mem_processDeps_entry table m hm (List.ne_nil_of_mem hmem),
      (mem_sortUnique _ _).mpr hmem⟩
  · decide

/-- Claim C6, witness: the general statement applied to the concrete table
with parent `p` and partition `p:a`. -/
theorem c6_partitions_witness :
    ∃ ds, ("p", ds) ∈ processModuleDependencies c6table ∧ "p:a" ∈ ds :=
  c6_partitions.1 c6table ⟨"p", [], "", true, ""⟩ ⟨"p:a", [], "", true, ""⟩
    (by decide) (by decide) (by decide) (by decide)

/-- Claim C7: an import written as a bare partition reference is stored
qualified by the importing module's parent name — the name with its own
partition suffix stripped, or the name itself when it has none. -/
theorem c7_qualify : ∀ (table : List ModuleInfo) (m : ModuleInfo) (imp parent : String),
    m ∈ table → imp ∈ m.imports → imp ≠ "" → imp ≠ m.name →
    strStarts ":" imp = true → hasColon parent = false →
    (m.name = parent ∨ ∃ suf, m.name = parent ++ ":" ++ suf) →
    ∃ ds, (m.name, ds) ∈ processModuleDependencies table ∧ (parent ++ imp) ∈ ds := by
  intro table m imp parent hm himp hne hnm hcol hcolp hpar
  have hq : mainModuleOf m.name = parent := by
    rcases hpar with h | ⟨suf, h⟩
    · rw [h]; exact mainModuleOf_noColon _ hcolp
    · rw [h]; exact mainModuleOf_parent parent suf hcolp
  have hmem : (parent ++ imp) ∈ cleanImportsOf table m := by
    unfold cleanImportsOf
    apply List.mem_append_left
    refine List.mem_filterMap.mpr ⟨imp, himp, ?_⟩
    rw [if_pos ⟨hne, hnm⟩, if_pos hcol, hq]
  exact ⟨sortUnique (cleanImportsOf table m),
    mem_processDeps_entry table m hm (List.ne_nil_of_mem hmem),
    (mem_sortUnique _ _).mpr hmem⟩

/-- Claim C7, witness: inside the module `p:a`, the bare import `:util` is
stored as `p:util`. -/
theorem c7_qualify_witness :
    ∃ ds, ("p:a", ds) ∈ processModuleDependencies c7table ∧ ("p" ++ ":util") ∈ ds :=
  c7_qualify c7table ⟨"p:a", [":util"], "", true, ""⟩ ":util" "p"
    (by decide) (by decide) (by decide) (by decide) (by decide) (by decide)
    (Or.inr ⟨"a", by decide⟩)

/-- Claim C8: the module table is identical for every positive worker count —
splitting the file list into contiguous chunks with the remainder given to
the earliest workers, parsing chunks independently, and merging in chunk
order equals the single-worker sequential scan. -/
theorem c8_parallel : ∀ (parse : String → ModuleInfo) (files : List String) (n : Nat),
    0 < n → scanWorkers parse files n = scanWorkers parse files 1 := by
  intro parse files n hn
  unfold scanWorkers
  rw [← List.filterMap_flatten, ← List.filterMap_flatten,
      chunkList_flatten, chunkList_flatten,
      chunkTotal_eq _ _ _ (Nat.le_of_lt (Nat.mod_lt _ hn)),
      chunkTotal_eq _ _ _ (by omega : files.length % 1 ≤ 1),
      Nat.div_add_mod, Nat.div_add_mod, List.take_length]

/-- Claim C8, witness: two workers and one worker produce the same table on
the three-file fixture. -/
theorem c8_parallel_witness : scanWorkers parseW filesW 2 = scanWorkers parseW filesW 1 :=
  c8_parallel parseW filesW 2 (by decide)

/-- Claim C9: `updateBuildFile` writes exactly when the computed text differs
from the original content; when every per-target edit is a no-op the file
content is unchanged and no write occurs. -/
theorem c9_write_guard :
    ∀ (targets : List BuildTarget) (mods : List ModuleInfo) (content : List Char),
    ((updateBuildFileRun targets mods content).2 = true ↔
      updateBuildFileText targets mods content ≠ content)
    ∧ ((updateBuildFileRun targets mods content).2 = false →
      (updateBuildFileRun targets mods content).1 = content)
    ∧ ((updateBuildFileRun targets mods content).2 = true →
      (updateBuildFileRun targets mods content).1 = updateBuildFileText targets mods content) := by
  intro T M c
  by_cases h : updateBuildFileText T M c = c
  · simp [updateBuildFileRun, h]
  · simp [updateBuildFileRun, h]

/-- Claim C9, witness: on an empty target list the computation is the
identity, so no write occurs and the content is retained. -/
theorem c9_write_guard_witness : (updateBuildFileRun [] [] "x".data).1 = "x".data :=
  (c9_write_guard [] [] "x".data).2.1 (by decide)

/-- Claim C10: when the interfaces field contains `glob(`, the produced list
is exactly the expansion of the quoted patterns of the first `glob([...])`
group (empty when no well-formed group exists), so literal quoted `.ixx`
names in the field are ignored; without `glob(` the quoted `.ixx` literals
are collected.  The concrete field shows a literal name next to a glob group
being dropped. -/
theorem c10_glob :
    (∀ (s : String) (fs : FS) (root x : String), hasSubstr "glob(".data s.data = true →
      (x ∈ parseModuleInterfaces s fs root ↔
        ∃ inner, findGlobGroup s.data = some inner ∧
          ∃ g ∈ quotedStrings inner, x ∈ processGlobExpression g fs root))
    ∧ (∀ (s : String) (fs : FS) (root : String), hasSubstr "glob(".data s.data = false →
      parseModuleInterfaces s fs root = ixxQuoted s.data)
    ∧ parseModuleInterfaces c10field fsD "r" = ["d/a.ixx"]
    ∧ "lit.ixx" ∉ parseModuleInterfaces c10field fsD "r" := by
  refine ⟨?_, ?_, by decide, by decide⟩
  · intro s fs root x h
    unfold parseModuleInterfaces
    rw [if_pos h]
    rcases hg : findGlobGroup s.data with _ | inner
    · simp
    · simp only [Option.some.injEq]
      rw [List.mem_flatten]
      constructor
      · rintro ⟨l, hl, hxl⟩
        rcases List.mem_map.mp hl with ⟨g, hgq, rfl⟩
        exact ⟨inner, rfl, g, hgq, hxl⟩
      · rintro ⟨inner2, hi2, g, hgq, hxg⟩
        subst hi2
        exact ⟨_, List.mem_map.mpr ⟨g, hgq, rfl⟩, hxg⟩
  · intro s fs root h
    unfold parseModuleInterfaces
    rw [if_neg (by simp [h])]

/-- Claim C10, witness: the membership characterization applied to the
concrete field and snapshot. -/
theorem c10_glob_witness :
    "d/a.ixx" ∈ parseModuleInterfaces c10field fsD "r" ↔
      ∃ inner, findGlobGroup c10field.data = some inner ∧
        ∃ g ∈ quotedStrings inner, "d/a.ixx" ∈ processGlobExpression g fsD "r" :=
  c10_glob.1 c10field fsD "r" "d/a.ixx" (by decide)

end ScanModuleDeps
